import Mathlib

/-!
Shallow embedding of the ESP32 accelerometer-monitor firmware
(`src/main.cpp`): clock formatting, the fixed-rate sampler `acquireN`,
the milli-g conversion, little-endian sample packing, the CBOR publish
helpers with their fixed destination buffers, and the post-acquisition
RMS gate / publish sequence of `setup()`.

Machine integers are modelled as `Nat`/`Int` with explicit `% 2 ^ w`
where the source performs a narrowing cast.  The monotonic clock
(`esp_timer_get_time`) and the sensor are modelled as finite streams of
readings consumed in call order; a run fails (`none`) if a stream is
exhausted.  `float`/`double` sensor values are modelled as rationals.
-/

namespace AccelMonitor

/-! ## Clock reconciler: ISO-8601 formatting (src/main.cpp lines 790-813) -/

/-- Left-pad the decimal rendering of `n` with zeros to width `k`
(the `%0ku` conversions of `strftime`/`snprintf`). -/
def padZeros (k n : ℕ) : String :=
  let s := Nat.repr n
  String.mk (List.replicate (k - s.length) '0') ++ s

/-- Modelled from the spec: the civil-calendar conversion performed by the
libc `gmtime_r` (not part of `src/`); days since 1970-01-01 to
(year, month, day), proleptic Gregorian. -/
def civilFromDays (days : ℕ) : ℕ × ℕ × ℕ :=
  let z := days + 719468
  let era := z / 146097
  let doe := z % 146097
  let yoe := (doe - doe / 1460 + doe / 36524 - doe / 146097) / 365
  let y := yoe + era * 400
  let doy := doe - (365 * yoe + yoe / 4 - yoe / 100)
  let mp := (5 * doy + 2) / 153
  let d := doy - (153 * mp + 2) / 5 + 1
  let m := if mp < 10 then mp + 3 else mp - 9
  (if m ≤ 2 then y + 1 else y, m, d)

/-- Modelled from the spec: `formatISO8601UTC` (src lines 790-794), which
renders `strftime "%Y-%m-%dT%H:%M:%SZ"` of `gmtime_r t` — a deterministic
rendering of the epoch-seconds value (`gmtime_r`/`strftime` are libc,
not part of `src/`). -/
def formatISO8601UTC (t : ℕ) : String :=
  let days := t / 86400
  let secs := t % 86400
  let ymd := civilFromDays days
  padZeros 4 ymd.1 ++ "-" ++ padZeros 2 ymd.2.1 ++ "-" ++ padZeros 2 ymd.2.2 ++
    "T" ++ padZeros 2 (secs / 3600) ++ ":" ++ padZeros 2 (secs % 3600 / 60) ++
    ":" ++ padZeros 2 (secs % 60) ++ "Z"

/-- `formatISO8601UTC_us` (src lines 797-813): split `epoch_us` into seconds
and microseconds, render the seconds part, strip the trailing `Z` and append
`.%06uZ` built from the microseconds of the same `epoch_us` value.
(The base string produced above always ends in `Z`, so the source's
fallback branch for a missing `Z` is never taken.) -/
def formatISO8601UTC_us (epoch_us : ℕ) : String :=
  let s := epoch_us / 1000000
  let us := epoch_us % 1000000
  let base := formatISO8601UTC s
  base.dropRight 1 ++ "." ++ padZeros 6 us ++ "Z"

/-! ## Sensor conversion (src/main.cpp lines 841-848) -/

/-- The C `lroundf`: round half away from zero. -/
def lroundf (x : ℚ) : ℤ :=
  if x < 0 then -⌊-x + 1 / 2⌋ else ⌊x + 1 / 2⌋

/-- `mps2_to_mg` (src lines 841-848): convert m/s² to milli-g, round, and
clamp into the `int16` range (first the upper bound, then the lower, as in
the source). -/
def mps2_to_mg (a_mps2 : ℚ) : ℤ :=
  let g0 : ℚ := 9.80665
  let mg : ℚ := a_mps2 / g0 * 1000
  let v : ℤ := lroundf mg
  let v1 : ℤ := if 32767 < v then 32767 else v
  if v1 < -32768 then -32768 else v1

/-! ## Little-endian packing (src/main.cpp lines 853-858) -/

/-- `put_u16_le` (src lines 853-856): the two bytes `v & 0xFF` and
`(v >> 8) & 0xFF`, in that order. -/
def put_u16_le (v : ℕ) : List ℕ :=
  [v % 256, v / 256 % 256]

/-- `put_i16_le` (src lines 857-858): reinterpret the `int16` as `uint16`
(i.e. reduce modulo `2 ^ 16`) and pack little-endian. -/
def put_i16_le (v : ℤ) : List ℕ :=
  put_u16_le (v % 65536).toNat

/-- The packing loop over `dt_us_buf` (src lines 1225-1227): consecutive
2-byte little-endian groups. -/
def packSamplesU16 (vs : List ℕ) : List ℕ :=
  vs.flatMap put_u16_le

/-- The packing loop over an axis buffer (src lines 1234-1238). -/
def packSamplesI16 (vs : List ℤ) : List ℕ :=
  vs.flatMap put_i16_le

/-- Receiver-side decoding of consecutive little-endian `i16` pairs
(the spec's wire contract `i16le_mg`): low byte plus 256 times the high
byte, interpreted as two's-complement. -/
def decode_i16_le_list : List ℕ → List ℤ
  | b0 :: b1 :: rest =>
      (if 32768 ≤ b0 + 256 * b1 then ((b0 + 256 * b1 : ℕ) : ℤ) - 65536
       else ((b0 + 256 * b1 : ℕ) : ℤ)) :: decode_i16_le_list rest
  | _ => []

/-! ## Acquisition (src/main.cpp lines 972-1024) -/

/-- The interval clamping of src lines 1005-1008: negative deltas become 0,
the value is narrowed by the `(uint32_t)` cast (reduction modulo `2 ^ 32`),
then saturated at 65535. -/
def clampDt (d64 : ℤ) : ℕ :=
  let d0 : ℤ := if d64 < 0 then 0 else d64
  let d : ℕ := d0.toNat % 2 ^ 32
  if 65535 < d then 65535 else d

/-- State carried through the sampling loop: the unconsumed clock and
sensor streams, `last_t_us`, and the buffers written so far. -/
structure AcqState where
  clk : List ℤ
  sensor : List (ℚ × ℚ × ℚ)
  last_t : ℤ
  dt : List ℕ
  dt_sum : ℕ
  ax : List ℤ
  ay : List ℤ
  az : List ℤ
deriving DecidableEq

/-- External environment of one acquisition: the wall-clock reading
(`epochUsNow`), the stream of monotonic readings returned by successive
`esp_timer_get_time()` calls, and the stream of sensor samples. -/
structure Env where
  epochNow : ℕ
  clk : List ℤ
  sensor : List (ℚ × ℚ × ℚ)
deriving DecidableEq

/-- The busy wait `while (esp_timer_get_time() < target) delayMicroseconds(50);`
(src lines 997-999): each condition evaluation consumes one clock reading;
the loop exits on the first reading that is not below `target`.  Returns the
unconsumed remainder of the stream, or `none` if the stream is exhausted. -/
def busyWait : List ℤ → ℤ → Option (List ℤ)
  | [], _ => none
  | t :: rest, target => if t < target then busyWait rest target else some rest

/-- One iteration of the sampling loop (src lines 993-1020) at index `i`:
for `i > 0` busy-wait until the monotonic clock reaches
`t0 + i * period_us`; read `t_now`; for `i > 0` append the clamped delta to
the interval series and accumulate the (u64) running sum; read one sensor
sample and append its milli-g conversion to the three axis buffers. -/
def acqStep (period_us : ℕ) (t0 : ℤ) (i : ℕ) (s : AcqState) : Option AcqState :=
  let waited : Option (List ℤ) :=
    if i = 0 then some s.clk else busyWait s.clk (t0 + (i : ℤ) * (period_us : ℤ))
  match waited, s.sensor with
  | some (t_now :: clk2), (x, y, z) :: sens2 =>
      some { clk := clk2
             sensor := sens2
             last_t := t_now
             dt := if i = 0 then s.dt else s.dt ++ [clampDt (t_now - s.last_t)]
             dt_sum := if i = 0 then s.dt_sum
                       else (s.dt_sum + clampDt (t_now - s.last_t)) % 2 ^ 64
             ax := s.ax ++ [mps2_to_mg x]
             ay := s.ay ++ [mps2_to_mg y]
             az := s.az ++ [mps2_to_mg z] }
  | _, _ => none

/-- The `for (i = 0; i < N; i++)` loop, with `k` iterations remaining and
`i` the current index. -/
def acqLoop (period_us : ℕ) (t0 : ℤ) : ℕ → ℕ → AcqState → Option AcqState
  | 0, _, s => some s
  | k + 1, i, s => (acqStep period_us t0 i s).bind (acqLoop period_us t0 k (i + 1))

/-- Loop state at entry: empty buffers, `last_t_us = t0_rel_us`
(src line 988). -/
def initState (t0 : ℤ) (clk : List ℤ) (sensor : List (ℚ × ℚ × ℚ)) : AcqState :=
  { clk := clk, sensor := sensor, last_t := t0,
    dt := [], dt_sum := 0, ax := [], ay := [], az := [] }

/-- Result of a successful acquisition: the captured `epoch_us0`, the
interval series, the three axis buffers and the interval sum. -/
structure AcqResult where
  epoch_us0 : ℕ
  dt_us : List ℕ
  ax_mg : List ℤ
  ay_mg : List ℤ
  az_mg : List ℤ
  dt_sum_us : ℕ
deriving DecidableEq

/-- `acquireN` (src lines 972-1024): reject `N < 2` before touching
anything; capture the wall-clock epoch; take the monotonic reference `t0`;
compute `period_us = 1000000 / fs_hz` (integer division); run the loop. -/
def acquireN (N fs_hz : ℕ) (env : Env) : Option AcqResult :=
  if N < 2 then none
  else
    match env.clk with
    | [] => none
    | t0 :: clkRest =>
      let period_us := 1000000 / fs_hz
      (acqLoop period_us t0 N 0 (initState t0 clkRest env.sensor)).map fun s =>
        { epoch_us0 := env.epochNow, dt_us := s.dt,
          ax_mg := s.ax, ay_mg := s.ay, az_mg := s.az, dt_sum_us := s.dt_sum }

/-! ## Wire message codec (src/main.cpp lines 864-967) -/

/-- Modelled from the spec: the encoded size of an unsigned integer under
the binary map codec used by the TinyCBOR library (not part of `src/`):
one header byte for values below 24, otherwise a header byte plus a 1-, 2-,
4- or 8-byte big-endian argument. -/
def cborUintSize (n : ℕ) : ℕ :=
  if n < 24 then 1
  else if n < 2 ^ 8 then 2
  else if n < 2 ^ 16 then 3
  else if n < 2 ^ 32 then 5
  else 9

/-- Modelled from the spec: encoded size of a text string — a length
header (sized like an unsigned integer) followed by the bytes. -/
def cborTextSize (s : String) : ℕ :=
  cborUintSize s.length + s.length

/-- Modelled from the spec: encoded size of a byte string of `len` bytes. -/
def cborBytesSize (len : ℕ) : ℕ :=
  cborUintSize len + len

/-- The `Meta` message: the 12 fields written by `publishMetaCbor`
(src lines 875-930), in source order. -/
structure MetaMsg where
  type : String
  id : String
  dev : String
  ip : String
  ntp : ℕ
  epoch_s : ℕ
  iso : String
  t0_us : ℕ
  n : ℕ
  fs : ℕ
  dt_fmt : String
  a_fmt : String
deriving DecidableEq

/-- A `Blob` message: the 5 fields written by `publishBlobCbor`
(src lines 932-967), in source order. -/
structure BlobMsg where
  type : String
  id : String
  idx : ℕ
  parts : ℕ
  key : String
  payload : List ℕ
deriving DecidableEq

inductive Msg where
  | meta (m : MetaMsg)
  | blob (b : BlobMsg)
deriving DecidableEq

/-- Outcome of one publish call: the encoder ran out of destination buffer
(the source returns `false` before any `mqtt.publish`), or the message was
handed to the transport with the transport's boolean result. -/
inductive PubOutcome where
  | encodeError
  | sent (ok : Bool)
deriving DecidableEq

/-- Encoded size of a `Meta` message: the map header (12 entries, one
byte) plus each key/value pair, as written by src lines 885-926. -/
def metaEncodedSize (m : MetaMsg) : ℕ :=
  1 + cborTextSize "type" + cborTextSize m.type
    + cborTextSize "id" + cborTextSize m.id
    + cborTextSize "dev" + cborTextSize m.dev
    + cborTextSize "ip" + cborTextSize m.ip
    + cborTextSize "ntp" + cborUintSize m.ntp
    + cborTextSize "epoch_s" + cborUintSize m.epoch_s
    + cborTextSize "iso" + cborTextSize m.iso
    + cborTextSize "t0_us" + cborUintSize m.t0_us
    + cborTextSize "n" + cborUintSize m.n
    + cborTextSize "fs" + cborUintSize m.fs
    + cborTextSize "dt_fmt" + cborTextSize m.dt_fmt
    + cborTextSize "a_fmt" + cborTextSize m.a_fmt

/-- Encoded size of a `Blob` message: the map header (5 entries, one byte)
plus each key/value pair, as written by src lines 944-962. -/
def blobEncodedSize (b : BlobMsg) : ℕ :=
  1 + cborTextSize "type" + cborTextSize b.type
    + cborTextSize "id" + cborTextSize b.id
    + cborTextSize "idx" + cborUintSize b.idx
    + cborTextSize "parts" + cborUintSize b.parts
    + cborTextSize b.key + cborBytesSize b.payload.length

/-- `publishMetaCbor` (src lines 875-930): the destination buffer is
`uint8_t buf[512]`; any encoder error aborts with `false` before
`mqttPublishCbor`, otherwise the encoded bytes are handed to the
transport. -/
def publishMetaCbor (m : MetaMsg) (transport_ok : Bool) : PubOutcome :=
  if metaEncodedSize m ≤ 512 then .sent transport_ok else .encodeError

/-- `publishBlobCbor` (src lines 932-967): the destination buffer is
`uint8_t buf[1400]`; any encoder error aborts with `false` before
`mqttPublishCbor`, otherwise the encoded bytes are handed to the
transport. -/
def publishBlobCbor (b : BlobMsg) (transport_ok : Bool) : PubOutcome :=
  if blobEncodedSize b ≤ 1400 then .sent transport_ok else .encodeError

/-! ## Post-acquisition cycle: gate and publish sequence
(src/main.cpp lines 1047-1268) -/

/-- `makeIdMsg` (src lines 1047-1050): `"%s-%lu"` of the client id and the
low 32 bits of `epoch_us0`, truncated by `snprintf` to the 63 characters
that fit the 64-byte buffer. -/
def makeIdMsg (client_id : String) (epoch_us0 : ℕ) : String :=
  (client_id ++ "-" ++ Nat.repr (epoch_us0 % 2 ^ 32)).take 63

/-- Inputs of the post-acquisition phase of `setup()`: configuration
values, the acquisition outputs, the computed RMS statistic (the
`computeMagRms_mps2` float, abstracted as a rational), a later wall-clock
reading used only by the drift diagnostic, and the per-call transport
results. -/
structure CycleIn where
  client_id : String
  ip : String
  ntp_ok : Bool
  sleep_s : ℕ
  fs_hz : ℕ
  n : ℕ
  thr : ℚ
  rms : ℚ
  epoch_us0 : ℕ
  dt_us : List ℕ
  ax : List ℤ
  ay : List ℤ
  az : List ℤ
  wall_now2 : ℕ
  transport : ℕ → Bool

/-- The `Meta` message built by `setup()` (src lines 1155-1157 and
1219): `epoch_s` is the `(uint32_t)` cast of `epoch_us0 / 1000000` and
`iso` is `formatISO8601UTC_us epoch_us0`; both come from the single
captured `epoch_us0`, which is also sent verbatim as `t0_us`. -/
def buildMeta (c : CycleIn) : MetaMsg :=
  { type := "meta"
    id := makeIdMsg c.client_id c.epoch_us0
    dev := c.client_id
    ip := c.ip
    ntp := if c.ntp_ok then 1 else 0
    epoch_s := c.epoch_us0 / 1000000 % 2 ^ 32
    iso := formatISO8601UTC_us c.epoch_us0
    t0_us := c.epoch_us0
    n := c.n
    fs := c.fs_hz
    dt_fmt := "u16le_us"
    a_fmt := "i16le_mg" }

/-- One observable event of the cycle: a publish attempt carrying the
message and its outcome, or entry into deep sleep. -/
inductive Ev where
  | pub (m : Msg) (r : PubOutcome)
  | sleepEv (s : ℕ)
deriving DecidableEq

def Ev.msgOf : Ev → Option Msg
  | .pub m _ => some m
  | .sleepEv _ => none

def Msg.sessionId : Msg → String
  | .meta m => m.id
  | .blob b => b.id

def Msg.typeOf : Msg → String
  | .meta m => m.type
  | .blob b => b.type

/-- The `parts` field carried by a message: blobs carry their `parts`
value; the `Meta` schema has no such field. -/
def Msg.partsOf : Msg → Option ℕ
  | .meta _ => none
  | .blob b => some b.parts

/-- The publish branch of `setup()` (src lines 1214-1256): meta first,
then the four blobs `dt`, `x`, `y`, `z`, each with `idx = 0`,
`parts = 1`, the shared `id_msg`, and the packed little-endian payload;
each attempt's outcome is logged and the sequence continues regardless. -/
def publishPhase (c : CycleIn) : List Ev :=
  let id_msg := makeIdMsg c.client_id c.epoch_us0
  let meta := buildMeta c
  let dtB : BlobMsg :=
    { type := "dt", id := id_msg, idx := 0, parts := 1, key := "dt",
      payload := packSamplesU16 c.dt_us }
  let xB : BlobMsg :=
    { type := "x", id := id_msg, idx := 0, parts := 1, key := "a",
      payload := packSamplesI16 c.ax }
  let yB : BlobMsg :=
    { type := "y", id := id_msg, idx := 0, parts := 1, key := "a",
      payload := packSamplesI16 c.ay }
  let zB : BlobMsg :=
    { type := "z", id := id_msg, idx := 0, parts := 1, key := "a",
      payload := packSamplesI16 c.az }
  [ Ev.pub (.meta meta) (publishMetaCbor meta (c.transport 0)),
    Ev.pub (.blob dtB) (publishBlobCbor dtB (c.transport 1)),
    Ev.pub (.blob xB) (publishBlobCbor xB (c.transport 2)),
    Ev.pub (.blob yB) (publishBlobCbor yB (c.transport 3)),
    Ev.pub (.blob zB) (publishBlobCbor zB (c.transport 4)) ]

/-- The RMS gate and the rest of the cycle (src lines 1204-1267):
`mag_rms < threshold` suppresses every publish and goes directly to
sleep; otherwise the fixed publish sequence runs and the cycle then
sleeps. -/
def cycleEvents (c : CycleIn) : List Ev :=
  if c.rms < c.thr then [Ev.sleepEv c.sleep_s]
  else publishPhase c ++ [Ev.sleepEv c.sleep_s]

/-- The end-of-acquisition drift cross-check (src lines 1189-1191):
`err_us = now - (epoch_us0 + sum(dt))`, computed from the second
wall-clock reading; purely diagnostic. -/
def cycleDriftDiag (c : CycleIn) : ℤ :=
  (c.wall_now2 : ℤ) - ((c.epoch_us0 : ℤ) + (c.dt_us.sum : ℤ))

/-- The messages whose publication the cycle attempts, in order. -/
def attemptedMsgs (c : CycleIn) : List Msg :=
  (cycleEvents c).filterMap Ev.msgOf

/-! ## Helper lemmas -/

theorem clampDt_le (z : ℤ) : clampDt z ≤ 65535 := by
  simp only [clampDt]
  split_ifs <;> omega

theorem clampDt_of_neg (z : ℤ) (h : z < 0) : clampDt z = 0 := by
  unfold clampDt
  simp only [if_pos h]
  norm_num

theorem clampDt_saturates (z : ℤ) (h1 : 65535 < z) (h2 : z < 2 ^ 32) :
    clampDt z = 65535 := by
  unfold clampDt
  have hnn : ¬ z < 0 := by omega
  simp only [if_neg hnn]
  have hz : z.toNat % 2 ^ 32 = z.toNat := Nat.mod_eq_of_lt (by omega)
  rw [hz, if_pos (by omega)]

/-- A successful busy wait consumes exactly the readings strictly below the
target followed by the first reading that reaches it. -/
theorem busyWait_spec (target : ℤ) :
    ∀ clk rest : List ℤ, busyWait clk target = some rest →
      ∃ pre t, clk = pre ++ t :: rest ∧ (∀ u ∈ pre, u < target) ∧ target ≤ t := by
  intro clk
  induction clk with
  | nil => intro rest h; simp [busyWait] at h
  | cons a tl ih =>
    intro rest h
    by_cases ha : a < target
    · rw [busyWait, if_pos ha] at h
      obtain ⟨pre, t, h1, h2, h3⟩ := ih rest h
      refine ⟨a :: pre, t, by simp [h1], ?_, h3⟩
      intro u hu
      rcases List.mem_cons.mp hu with h | h
      · exact h ▸ ha
      · exact h2 u h
    · rw [busyWait, if_neg ha] at h
      obtain rfl := Option.some.inj h
      exact ⟨[], a, rfl, by simp, not_lt.mp ha⟩

/-- Inversion of one loop iteration: a successful `acqStep` consists of a
successful wait (trivial at `i = 0`), a fresh clock reading `t_now`, one
sensor sample, and the corresponding buffer appends. -/
theorem acqStep_eq_some (period_us : ℕ) (t0 : ℤ) (i : ℕ) (s s' : AcqState)
    (h : acqStep period_us t0 i s = some s') :
    ∃ t_now clk2 x y z sens2,
      (if i = 0 then some s.clk
       else busyWait s.clk (t0 + (i : ℤ) * (period_us : ℤ))) = some (t_now :: clk2) ∧
      s.sensor = (x, y, z) :: sens2 ∧
      s' = { clk := clk2
             sensor := sens2
             last_t := t_now
             dt := if i = 0 then s.dt else s.dt ++ [clampDt (t_now - s.last_t)]
             dt_sum := if i = 0 then s.dt_sum
                       else (s.dt_sum + clampDt (t_now - s.last_t)) % 2 ^ 64
             ax := s.ax ++ [mps2_to_mg x]
             ay := s.ay ++ [mps2_to_mg y]
             az := s.az ++ [mps2_to_mg z] } := by
  unfold acqStep at h
  rcases hw : (if i = 0 then some s.clk
               else busyWait s.clk (t0 + (i : ℤ) * (period_us : ℤ))) with _ | clk1
  · rw [hw] at h; exact absurd h (by simp)
  · rw [hw] at h
    rcases clk1 with _ | ⟨t_now, clk2⟩
    · exact absurd h (by simp)
    · rcases hs : s.sensor with _ | ⟨⟨x, y, z⟩, sens2⟩
      · rw [hs] at h; exact absurd h (by simp)
      · rw [hs] at h
        simp only [Option.some.injEq] at h
        exact ⟨t_now, clk2, x, y, z, sens2, rfl, rfl, h.symm⟩

/-- Splitting the loop: `a + b` iterations from index `i` are `a`
iterations from `i` followed by `b` iterations from `i + a`. -/
theorem acqLoop_add (period_us : ℕ) (t0 : ℤ) (a : ℕ) :
    ∀ (b i : ℕ) (s : AcqState),
      acqLoop period_us t0 (a + b) i s =
        (acqLoop period_us t0 a i s).bind (acqLoop period_us t0 b (i + a)) := by
  induction a with
  | zero => intro b i s; simp [acqLoop]
  | succ k ih =>
    intro b i s
    have harith : k + 1 + b = (k + b) + 1 := by omega
    rw [harith]
    show (acqStep period_us t0 i s).bind (acqLoop period_us t0 (k + b) (i + 1)) =
      ((acqStep period_us t0 i s).bind (acqLoop period_us t0 k (i + 1))).bind
        (acqLoop period_us t0 b (i + (k + 1)))
    cases hstep : acqStep period_us t0 i s with
    | none => simp
    | some s1 =>
      simp only [Option.some_bind]
      rw [ih b (i + 1) s1]
      have h2 : i + 1 + k = i + (k + 1) := by omega
      rw [h2]

/-- Buffer growth across the loop: each iteration appends one sample to
every axis buffer, and one interval entry except at index 0. -/
theorem acqLoop_lengths (period_us : ℕ) (t0 : ℤ) :
    ∀ (k i : ℕ) (s s' : AcqState), acqLoop period_us t0 k i s = some s' →
      s'.ax.length = s.ax.length + k ∧ s'.ay.length = s.ay.length + k ∧
      s'.az.length = s.az.length + k ∧
      s'.dt.length + (if i = 0 ∧ 1 ≤ k then 1 else 0) = s.dt.length + k := by
  intro k
  induction k with
  | zero =>
    intro i s s' h
    obtain rfl := Option.some.inj h
    simp
  | succ m ih =>
    intro i s s' h
    rw [acqLoop] at h
    cases hstep : acqStep period_us t0 i s with
    | none => rw [hstep] at h; exact absurd h (by simp)
    | some s1 =>
      rw [hstep] at h
      simp only [Option.some_bind] at h
      obtain ⟨hax, hay, haz, hdt⟩ := ih (i + 1) s1 s' h
      obtain ⟨t_now, clk2, x, y, z, sens2, _, _, rfl⟩ :=
        acqStep_eq_some period_us t0 i s s1 hstep
      simp only [List.length_append, List.length_singleton] at hax hay haz hdt ⊢
      by_cases hi : i = 0
      · subst hi
        simp only [if_pos rfl, reduceIte] at hdt ⊢
        constructor
        · omega
        constructor
        · omega
        constructor
        · omega
        · have : ¬ (0 + 1 = 0 ∧ 1 ≤ m) := by omega
          rw [if_neg this] at hdt
          simp only [true_and]
          rw [if_pos (by omega)]
          omega
      · simp only [if_neg hi] at hdt ⊢
        have : ¬ (i + 1 = 0 ∧ 1 ≤ m) := by omega
        rw [if_neg this] at hdt
        have : ¬ (i = 0 ∧ 1 ≤ m + 1) := by omega
        rw [if_neg this]
        simp only [List.length_append, List.length_singleton] at hdt ⊢
        omega

/-- Interval-series invariant through the loop: every stored entry is at
most 65535 and the running u64 sum equals the list sum modulo `2 ^ 64`. -/
theorem acqLoop_dt_inv (period_us : ℕ) (t0 : ℤ) :
    ∀ (k i : ℕ) (s s' : AcqState), acqLoop period_us t0 k i s = some s' →
      (∀ d ∈ s.dt, d ≤ 65535) → s.dt_sum = s.dt.sum % 2 ^ 64 →
      (∀ d ∈ s'.dt, d ≤ 65535) ∧ s'.dt_sum = s'.dt.sum % 2 ^ 64 := by
  intro k
  induction k with
  | zero =>
    intro i s s' h hb hs
    obtain rfl := Option.some.inj h
    exact ⟨hb, hs⟩
  | succ m ih =>
    intro i s s' h hb hs
    rw [acqLoop] at h
    cases hstep : acqStep period_us t0 i s with
    | none => rw [hstep] at h; simp at h
    | some s1 =>
      rw [hstep] at h
      simp only [Option.some_bind] at h
      obtain ⟨t_now, clk2, x, y, z, sens2, _, _, rfl⟩ :=
        acqStep_eq_some period_us t0 i s s1 hstep
      by_cases hi : i = 0
      · exact ih (i + 1) _ s' h (by simpa [hi] using hb) (by simpa [hi] using hs)
      · refine ih (i + 1) _ s' h ?_ ?_
        · simp only [if_neg hi]
          intro d hd
          rcases List.mem_append.mp hd with h1 | h1
          · exact hb d h1
          · rw [List.mem_singleton.mp h1]
            exact clampDt_le _
        · simp only [if_neg hi, List.sum_append, List.sum_cons, List.sum_nil]
          rw [hs]
          omega

/-- Inversion of a successful `acquireN`: `N ≥ 2`, the clock stream is
nonempty, the loop succeeded from the initial state, and the result is the
final loop state's buffers together with the captured epoch. -/
theorem acquireN_eq_some (N fs_hz : ℕ) (env : Env) (r : AcqResult)
    (h : acquireN N fs_hz env = some r) :
    2 ≤ N ∧ ∃ t0 clkRest sf,
      env.clk = t0 :: clkRest ∧
      acqLoop (1000000 / fs_hz) t0 N 0 (initState t0 clkRest env.sensor) = some sf ∧
      r = { epoch_us0 := env.epochNow, dt_us := sf.dt, ax_mg := sf.ax,
            ay_mg := sf.ay, az_mg := sf.az, dt_sum_us := sf.dt_sum } := by
  unfold acquireN at h
  by_cases hN : N < 2
  · rw [if_pos hN] at h; simp at h
  · rw [if_neg hN] at h
    rcases hclk : env.clk with _ | ⟨t0, clkRest⟩
    · rw [hclk] at h; simp at h
    · rw [hclk] at h
      dsimp only at h
      rcases hloop : acqLoop (1000000 / fs_hz) t0 N 0 (initState t0 clkRest env.sensor)
        with _ | sf
      · rw [hloop] at h; simp at h
      · rw [hloop] at h
        simp only [Option.map_some'] at h
        exact ⟨by omega, t0, clkRest, sf, rfl, hloop, (Option.some.inj h).symm⟩

theorem packSamplesI16_length (vs : List ℤ) :
    (packSamplesI16 vs).length = 2 * vs.length := by
  induction vs with
  | nil => rfl
  | cons v tl ih =>
    simp only [packSamplesI16, List.flatMap_cons] at ih ⊢
    rw [List.length_append, ih]
    show 2 + _ = _
    simp only [List.length_cons]
    omega

theorem packSamplesU16_length (vs : List ℕ) :
    (packSamplesU16 vs).length = 2 * vs.length := by
  induction vs with
  | nil => rfl
  | cons v tl ih =>
    simp only [packSamplesU16, List.flatMap_cons] at ih ⊢
    rw [List.length_append, ih]
    show 2 + _ = _
    simp only [List.length_cons]
    omega

theorem sum_le_of_forall_le (l : List ℕ) (b : ℕ) (h : ∀ x ∈ l, x ≤ b) :
    l.sum ≤ l.length * b := by
  induction l with
  | nil => simp
  | cons a tl ih =>
    simp only [List.sum_cons, List.length_cons]
    have h1 := ih fun x hx => h x (List.mem_cons_of_mem a hx)
    have h2 := h a (List.mem_cons_self a tl)
    calc a + tl.sum ≤ b + tl.length * b := by omega
    _ = (tl.length + 1) * b := by ring

/-- Packing one in-range `i16` and decoding the leading 2-byte pair gives
back the original value. -/
theorem decode_put_i16 (v : ℤ) (rest : List ℕ) (h1 : -32768 ≤ v) (h2 : v ≤ 32767) :
    decode_i16_le_list (put_i16_le v ++ rest) = v :: decode_i16_le_list rest := by
  show decode_i16_le_list
      ((v % 65536).toNat % 256 :: (v % 65536).toNat / 256 % 256 :: rest) = _
  set m := (v % 65536).toNat with hm_def
  rw [decode_i16_le_list]
  have hmlt : m < 65536 := by omega
  have hb : m % 256 + 256 * (m / 256 % 256) = m := by omega
  rw [hb]
  congr 1
  split_ifs with hcase
  · omega
  · omega

theorem acqLoop_succ (period_us : ℕ) (t0 : ℤ) (k i : ℕ) (s : AcqState) :
    acqLoop period_us t0 (k + 1) i s =
      (acqStep period_us t0 i s).bind (acqLoop period_us t0 k (i + 1)) := rfl

/-! ## Claim theorems -/

/-- C6: calling the sampler with `n < 2` returns the acquisition error
uniformly in the environment — no clock, wall-clock, or sensor reading is
consumed and no result buffer is produced, so the caller's output
parameters are untouched. -/
theorem acquireN_rejects_small_n (N fs_hz : ℕ) (env : Env) (h : N < 2) :
    acquireN N fs_hz env = none := by
  unfold acquireN
  rw [if_pos h]

theorem acquireN_rejects_small_n_witness :
    acquireN 1 1000 { epochNow := 42, clk := [0, 1, 2], sensor := [(0, 0, 0)] } = none :=
  acquireN_rejects_small_n 1 1000 _ (by decide)

/-- C10: the milli-g conversion always returns a value in
`[-32768, 32767]`; when the rounded milli-g value exceeds a bound of the
`int16` range it is saturated to that bound rather than wrapped. -/
theorem mps2_to_mg_saturates (a : ℚ) :
    (-32768 ≤ mps2_to_mg a ∧ mps2_to_mg a ≤ 32767) ∧
    (32767 < lroundf (a / 9.80665 * 1000) → mps2_to_mg a = 32767) ∧
    (lroundf (a / 9.80665 * 1000) < -32768 → mps2_to_mg a = -32768) := by
  simp only [mps2_to_mg]
  split_ifs <;> constructor <;> try constructor
  all_goals omega

theorem mps2_to_mg_saturates_witness :
    (32767 < lroundf ((1000 : ℚ) / 9.80665 * 1000) ∧ mps2_to_mg 1000 = 32767) ∧
    (lroundf ((-1000 : ℚ) / 9.80665 * 1000) < -32768 ∧ mps2_to_mg (-1000) = -32768) :=
  ⟨⟨by norm_num [lroundf], (mps2_to_mg_saturates 1000).2.1 (by norm_num [lroundf])⟩,
   ⟨by norm_num [lroundf], (mps2_to_mg_saturates (-1000)).2.2 (by norm_num [lroundf])⟩⟩

/-- C9: packing a sequence of in-range signed 16-bit samples with
`put_i16_le` and decoding consecutive little-endian 2-byte pairs
reproduces the original sequence exactly. -/
theorem i16_le_roundtrip (vs : List ℤ) (h : ∀ v ∈ vs, -32768 ≤ v ∧ v ≤ 32767) :
    decode_i16_le_list (packSamplesI16 vs) = vs := by
  induction vs with
  | nil => rfl
  | cons v tl ih =>
    have hv := h v (List.mem_cons_self v tl)
    rw [packSamplesI16, List.flatMap_cons, decode_put_i16 v _ hv.1 hv.2]
    have htl : decode_i16_le_list (packSamplesI16 tl) = tl :=
      ih fun x hx => h x (List.mem_cons_of_mem v hx)
    rw [show List.flatMap tl put_i16_le = packSamplesI16 tl from rfl, htl]

theorem i16_le_roundtrip_witness :
    (∀ v ∈ [(-32768 : ℤ), -32767, -256, -1, 0, 1, 255, 256, 32766, 32767],
        -32768 ≤ v ∧ v ≤ 32767) ∧
    decode_i16_le_list
        (packSamplesI16 [(-32768 : ℤ), -32767, -256, -1, 0, 1, 255, 256, 32766, 32767]) =
      [(-32768 : ℤ), -32767, -256, -1, 0, 1, 255, 256, 32766, 32767] :=
  ⟨by decide, i16_le_roundtrip _ (by decide)⟩

/-- C5: a successful acquisition with `2 ≤ n ≤ 2000` writes exactly
`n - 1` interval entries and exactly `n` entries into each of the three
axis buffers. -/
theorem acquisition_buffer_lengths (N fs_hz : ℕ) (env : Env) (r : AcqResult)
    (h : acquireN N fs_hz env = some r) (h2 : 2 ≤ N) (h3 : N ≤ 2000) :
    r.dt_us.length = N - 1 ∧ r.ax_mg.length = N ∧ r.ay_mg.length = N ∧
    r.az_mg.length = N := by
  obtain ⟨-, t0, clkRest, sf, -, hloop, rfl⟩ := acquireN_eq_some N fs_hz env r h
  obtain ⟨hax, hay, haz, hdt⟩ := acqLoop_lengths _ t0 N 0 _ sf hloop
  rw [if_pos ⟨rfl, by omega⟩] at hdt
  simp only [initState, List.length_nil] at hax hay haz hdt
  refine ⟨?_, ?_, ?_, ?_⟩ <;> dsimp only <;> omega

def envC5 : Env :=
  { epochNow := 7, clk := [0, 5, 1000, 2000], sensor := [(0, 0, 0), (0, 0, 0)] }

def rC5 : AcqResult :=
  { epoch_us0 := 7, dt_us := [1995],
    ax_mg := [mps2_to_mg 0, mps2_to_mg 0],
    ay_mg := [mps2_to_mg 0, mps2_to_mg 0],
    az_mg := [mps2_to_mg 0, mps2_to_mg 0], dt_sum_us := 1995 }

theorem acquisition_buffer_lengths_witness :
    acquireN 2 1000 envC5 = some rC5 ∧
    (rC5.dt_us.length = 2 - 1 ∧ rC5.ax_mg.length = 2 ∧ rC5.ay_mg.length = 2 ∧
      rC5.az_mg.length = 2) :=
  ⟨by rfl,
   acquisition_buffer_lengths 2 1000 envC5 rC5 (by rfl) (by decide) (by decide)⟩

/-- C4 (amended): every interval entry stored by a successful acquisition
lies in `[0, 65535]` (entries are naturals, so the lower bound is
inherent), and the returned interval sum is exactly the sum of the stored
entries.  Each entry of an index-`i ≥ 1` step is `clampDt` of the
monotonic delta of that step, where `clampDt` sends a negative delta to 0
(never underflowing) and saturates a delta in `(65535, 2 ^ 32)` to 65535;
a delta of at least `2 ^ 32` µs is first reduced modulo `2 ^ 32` by the
`(uint32_t)` cast before the saturation test. -/
theorem interval_entries_clamped (N fs_hz : ℕ) (env : Env) (r : AcqResult)
    (h : acquireN N fs_hz env = some r) (h2 : 2 ≤ N) (h3 : N ≤ 2000) :
    (∀ d ∈ r.dt_us, d ≤ 65535) ∧
    r.dt_sum_us = r.dt_us.sum ∧
    (∀ (p : ℕ) (t0 : ℤ) (i : ℕ) (s s' : AcqState), 1 ≤ i →
        acqStep p t0 i s = some s' →
        ∃ t_now : ℤ, s'.dt = s.dt ++ [clampDt (t_now - s.last_t)] ∧
          s'.dt_sum = (s.dt_sum + clampDt (t_now - s.last_t)) % 2 ^ 64) ∧
    (∀ z : ℤ, z < 0 → clampDt z = 0) ∧
    (∀ z : ℤ, 65535 < z → z < 2 ^ 32 → clampDt z = 65535) := by
  obtain ⟨-, t0, clkRest, sf, -, hloop, rfl⟩ := acquireN_eq_some N fs_hz env r h
  obtain ⟨hbound, hsum⟩ := acqLoop_dt_inv _ t0 N 0 _ sf hloop
    (by simp [initState]) (by simp [initState])
  refine ⟨hbound, ?_, ?_, clampDt_of_neg, clampDt_saturates⟩
  · have hdtlen := (acqLoop_lengths _ t0 N 0 _ sf hloop).2.2.2
    rw [if_pos ⟨rfl, by omega⟩] at hdtlen
    simp only [initState, List.length_nil] at hdtlen
    have hle := sum_le_of_forall_le sf.dt 65535 hbound
    dsimp only
    rw [hsum]
    apply Nat.mod_eq_of_lt
    have : sf.dt.length ≤ 1999 := by omega
    calc sf.dt.sum ≤ sf.dt.length * 65535 := hle
    _ ≤ 1999 * 65535 := by
        exact Nat.mul_le_mul_right 65535 this
    _ < 2 ^ 64 := by norm_num
  · intro p t0' i s s' hi hstep
    obtain ⟨t_now, clk2, x, y, z, sens2, -, -, rfl⟩ := acqStep_eq_some p t0' i s s' hstep
    have hne : ¬ i = 0 := by omega
    exact ⟨t_now, by simp [if_neg hne], by simp [if_neg hne]⟩

def envC4 : Env :=
  { epochNow := 7, clk := [0, 0, 1000, 4294967296], sensor := [(0, 0, 0), (0, 0, 0)] }

def rC4 : AcqResult :=
  { epoch_us0 := 7, dt_us := [0],
    ax_mg := [mps2_to_mg 0, mps2_to_mg 0],
    ay_mg := [mps2_to_mg 0, mps2_to_mg 0],
    az_mg := [mps2_to_mg 0, mps2_to_mg 0], dt_sum_us := 0 }

/-- C4 counterexample to the claim as stated: in a successful acquisition
whose monotonic readings are `0, 0, 1000, 4294967296`, the delta between
the two samples is `2 ^ 32` µs — far above 65535 — yet the stored interval
entry is 0, not 65535: the `(uint32_t)` cast of src line 1007 wraps the
delta modulo `2 ^ 32` before the saturation test. -/
theorem interval_entries_clamped_counterexample :
    acquireN 2 1000 envC4 = some rC4 ∧
    rC4.dt_us = [0] ∧
    65535 < (4294967296 : ℤ) - 0 ∧
    clampDt ((4294967296 : ℤ) - 0) = 0 :=
  ⟨by rfl, by rfl, by decide, by decide⟩

theorem interval_entries_clamped_witness :
    acquireN 2 1000 envC5 = some rC5 ∧
    ((∀ d ∈ rC5.dt_us, d ≤ 65535) ∧
     rC5.dt_sum_us = rC5.dt_us.sum ∧
     (∀ (p : ℕ) (t0 : ℤ) (i : ℕ) (s s' : AcqState), 1 ≤ i →
         acqStep p t0 i s = some s' →
         ∃ t_now : ℤ, s'.dt = s.dt ++ [clampDt (t_now - s.last_t)] ∧
           s'.dt_sum = (s.dt_sum + clampDt (t_now - s.last_t)) % 2 ^ 64) ∧
     (∀ z : ℤ, z < 0 → clampDt z = 0) ∧
     (∀ z : ℤ, 65535 < z → z < 2 ^ 32 → clampDt z = 65535)) :=
  ⟨by rfl,
   interval_entries_clamped 2 1000 envC5 rC5 (by rfl) (by decide) (by decide)⟩

/-- C3: in every successful acquisition, for each sample index
`i ∈ [1, n)` the busy wait of step `i` polls the monotonic clock through
exactly the readings strictly below `t0 + i * (1000000 / fs_hz)` and
exits on the first reading at or past that target.  The target is a
function of the initial monotonic instant `t0` and the absolute index `i`
alone — the quantification over the reached state `s` shows it is not
accumulated from the previous sample's actual time. -/
theorem sampler_busywait_absolute_targets (N fs_hz : ℕ) (env : Env) (r : AcqResult)
    (h : acquireN N fs_hz env = some r) :
    ∃ t0 clkRest, env.clk = t0 :: clkRest ∧
      ∀ i, 1 ≤ i → i < N →
        ∃ s s',
          acqLoop (1000000 / fs_hz) t0 i 0 (initState t0 clkRest env.sensor) = some s ∧
          acqStep (1000000 / fs_hz) t0 i s = some s' ∧
          ∃ pre t rest, s.clk = pre ++ t :: rest ∧
            (∀ u ∈ pre, u < t0 + (i : ℤ) * ((1000000 / fs_hz : ℕ) : ℤ)) ∧
            t0 + (i : ℤ) * ((1000000 / fs_hz : ℕ) : ℤ) ≤ t := by
  obtain ⟨hN, t0, clkRest, sf, hclk, hloop, -⟩ := acquireN_eq_some N fs_hz env r h
  refine ⟨t0, clkRest, hclk, ?_⟩
  intro i h1 h2
  have hsplitN : N = i + (N - i) := by omega
  rw [hsplitN, acqLoop_add] at hloop
  cases hpre : acqLoop (1000000 / fs_hz) t0 i 0 (initState t0 clkRest env.sensor) with
  | none => rw [hpre] at hloop; simp at hloop
  | some s =>
    rw [hpre] at hloop
    simp only [Option.some_bind, Nat.zero_add] at hloop
    have hrem : N - i = (N - i - 1) + 1 := by omega
    rw [hrem, acqLoop_succ] at hloop
    cases hstep : acqStep (1000000 / fs_hz) t0 i s with
    | none => rw [hstep] at hloop; simp at hloop
    | some s' =>
      obtain ⟨t_now, clk2, x, y, z, sens2, hw, -, -⟩ :=
        acqStep_eq_some _ t0 i s s' hstep
      rw [if_neg (by omega : ¬ i = 0)] at hw
      obtain ⟨pre, t, hsp, hlt, hge⟩ := busyWait_spec _ s.clk _ hw
      exact ⟨s, s', rfl, hstep, pre, t, t_now :: clk2, hsp, hlt, hge⟩

def envC3 : Env :=
  { epochNow := 5, clk := [100, 100, 950, 1100, 2000], sensor := [(0, 0, 0), (0, 0, 0)] }

def rC3 : AcqResult :=
  { epoch_us0 := 5, dt_us := [1900],
    ax_mg := [mps2_to_mg 0, mps2_to_mg 0],
    ay_mg := [mps2_to_mg 0, mps2_to_mg 0],
    az_mg := [mps2_to_mg 0, mps2_to_mg 0], dt_sum_us := 1900 }

theorem sampler_busywait_absolute_targets_witness :
    ∃ t0 clkRest, envC3.clk = t0 :: clkRest ∧
      ∀ i, 1 ≤ i → i < 2 →
        ∃ s s',
          acqLoop (1000000 / 1000) t0 i 0 (initState t0 clkRest envC3.sensor) = some s ∧
          acqStep (1000000 / 1000) t0 i s = some s' ∧
          ∃ pre t rest, s.clk = pre ++ t :: rest ∧
            (∀ u ∈ pre, u < t0 + (i : ℤ) * ((1000000 / 1000 : ℕ) : ℤ)) ∧
            t0 + (i : ℤ) * ((1000000 / 1000 : ℕ) : ℤ) ≤ t :=
  sampler_busywait_absolute_targets 2 1000 envC3 rC3 (by rfl)

/-- C1: the RMS gate of `setup()` — a computed RMS strictly below the
threshold attempts no message and the cycle's only event is the direct
transition to sleep; an RMS at or above the threshold enters the publish
path (the fixed publish sequence followed by sleep, with at least one
attempted message). -/
theorem rms_gate_decision (c : CycleIn) :
    (c.rms < c.thr → attemptedMsgs c = [] ∧ cycleEvents c = [Ev.sleepEv c.sleep_s]) ∧
    (c.thr ≤ c.rms → cycleEvents c = publishPhase c ++ [Ev.sleepEv c.sleep_s] ∧
      attemptedMsgs c ≠ []) := by
  constructor
  · intro h
    constructor
    · simp [attemptedMsgs, cycleEvents, h, Ev.msgOf]
    · simp [cycleEvents, h]
  · intro h
    have hn : ¬ c.rms < c.thr := not_lt.mpr h
    constructor
    · simp [cycleEvents, hn]
    · simp [attemptedMsgs, cycleEvents, hn, publishPhase, Ev.msgOf]

def cLow : CycleIn :=
  { client_id := "esp32s3-lis331-01", ip := "192.168.4.9", ntp_ok := true,
    sleep_s := 300, fs_hz := 100, n := 4, thr := 10.78, rms := 9.807,
    epoch_us0 := 1700000000123456, dt_us := [10000, 10000, 10000],
    ax := [0, 0, 0, 0], ay := [0, 0, 0, 0], az := [10000, 10000, 10000, 10000],
    wall_now2 := 1700000000160000, transport := fun _ => true }

theorem rms_gate_decision_witness :
    cLow.rms < cLow.thr ∧
    (attemptedMsgs cLow = [] ∧ cycleEvents cLow = [Ev.sleepEv cLow.sleep_s]) :=
  ⟨by norm_num [cLow], (rms_gate_decision cLow).1 (by norm_num [cLow])⟩

/-- C2 (amended): entering the publish path attempts exactly five
messages, in the fixed order meta, dt, x, y, z; all five carry the same
session id; the four blob messages carry `parts = 1` (the meta message
carries no `parts` field at all); and the attempted messages are the same
under every assignment of per-message transport outcomes, so the failure
of one message never prevents a later attempt. -/
theorem publish_sequence_fixed (c : CycleIn) (h : c.thr ≤ c.rms) :
    (attemptedMsgs c).length = 5 ∧
    (attemptedMsgs c).map Msg.typeOf = ["meta", "dt", "x", "y", "z"] ∧
    (∀ m ∈ attemptedMsgs c, Msg.sessionId m = makeIdMsg c.client_id c.epoch_us0) ∧
    (attemptedMsgs c).map Msg.partsOf = [none, some 1, some 1, some 1, some 1] ∧
    (∀ tr : ℕ → Bool, attemptedMsgs { c with transport := tr } = attemptedMsgs c) := by
  have hn : ¬ c.rms < c.thr := not_lt.mpr h
  refine ⟨?_, ?_, ?_, ?_, ?_⟩ <;>
    simp [attemptedMsgs, cycleEvents, hn, publishPhase, Ev.msgOf, Msg.typeOf,
      Msg.sessionId, Msg.partsOf, buildMeta]

def cHigh : CycleIn :=
  { client_id := "esp32s3-lis331-01", ip := "192.168.4.9", ntp_ok := true,
    sleep_s := 300, fs_hz := 100, n := 4, thr := 10.78, rms := 15,
    epoch_us0 := 1700000000123456, dt_us := [10000, 10000, 10000],
    ax := [0, 0, 0, 0], ay := [0, 0, 0, 0], az := [15300, 15300, 15300, 15300],
    wall_now2 := 1700000000160000, transport := fun i => i ≠ 2 }

theorem publish_sequence_fixed_witness :
    cHigh.thr ≤ cHigh.rms ∧
    ((attemptedMsgs cHigh).length = 5 ∧
     (attemptedMsgs cHigh).map Msg.typeOf = ["meta", "dt", "x", "y", "z"] ∧
     (∀ m ∈ attemptedMsgs cHigh,
        Msg.sessionId m = makeIdMsg cHigh.client_id cHigh.epoch_us0) ∧
     (attemptedMsgs cHigh).map Msg.partsOf = [none, some 1, some 1, some 1, some 1] ∧
     (∀ tr : ℕ → Bool, attemptedMsgs { cHigh with transport := tr } = attemptedMsgs cHigh)) :=
  ⟨by norm_num [cHigh], publish_sequence_fixed cHigh (by norm_num [cHigh])⟩

/-- C2 counterexample to the claim as stated: in a cycle that enters the
publish path, the first attempted message is the meta message, whose
schema has no `parts` field, so "every message carries `parts = 1`" is
false. -/
theorem publish_sequence_fixed_counterexample :
    cHigh.thr ≤ cHigh.rms ∧
    ¬ (∀ m ∈ attemptedMsgs cHigh, Msg.partsOf m = some 1) := by
  constructor
  · norm_num [cHigh]
  · intro hall
    have hn : ¬ cHigh.rms < cHigh.thr := by norm_num [cHigh]
    have hmem : Msg.meta (buildMeta cHigh) ∈ attemptedMsgs cHigh := by
      simp [attemptedMsgs, cycleEvents, hn, publishPhase, Ev.msgOf]
    have hparts := hall _ hmem
    simp [Msg.partsOf] at hparts

/-- C7: in the publish path, the meta message's `epoch_s` field equals
`epoch_us0 / 1000000` (for epochs whose seconds value fits `u32`), its
`t0_us` field is `epoch_us0` itself, and its `iso` field is the
micro-second rendering of the very same `epoch_us0` — seconds part from
`epoch_us0 / 1000000`, fractional part from `epoch_us0 % 1000000` — so
`epoch_s`, `iso` and `t0_us` are mutually coherent; moreover the cycle's
events are identical under every value of the later wall-clock reading,
which feeds only the drift diagnostic (`cycleDriftDiag`), so the wall
clock is never re-read to produce the meta timestamps. -/
theorem meta_timestamps_from_epoch (c : CycleIn) (h : c.thr ≤ c.rms)
    (hep : c.epoch_us0 < 2 ^ 32 * 1000000) :
    ∃ m rres rest, cycleEvents c = Ev.pub (Msg.meta m) rres :: rest ∧
      m.epoch_s = c.epoch_us0 / 1000000 ∧
      m.t0_us = c.epoch_us0 ∧
      m.iso = formatISO8601UTC_us c.epoch_us0 ∧
      m.iso = (formatISO8601UTC (c.epoch_us0 / 1000000)).dropRight 1 ++ "." ++
        padZeros 6 (c.epoch_us0 % 1000000) ++ "Z" ∧
      m.epoch_s = m.t0_us / 1000000 ∧
      ∀ w : ℕ, cycleEvents { c with wall_now2 := w } = cycleEvents c := by
  have hn : ¬ c.rms < c.thr := not_lt.mpr h
  have hdiv : c.epoch_us0 / 1000000 % 2 ^ 32 = c.epoch_us0 / 1000000 := by omega
  refine ⟨buildMeta c, publishMetaCbor (buildMeta c) (c.transport 0),
    (publishPhase c).tail ++ [Ev.sleepEv c.sleep_s], ?_, hdiv, rfl, rfl, rfl, hdiv,
    fun w => rfl⟩
  rw [cycleEvents, if_neg hn]
  rfl

def c7w : CycleIn :=
  { client_id := "esp32s3-lis331-01", ip := "192.168.4.9", ntp_ok := true,
    sleep_s := 300, fs_hz := 100, n := 4, thr := 10.78, rms := 15,
    epoch_us0 := 1700000000123456, dt_us := [10000, 10000, 10000],
    ax := [0, 0, 0, 0], ay := [0, 0, 0, 0], az := [15300, 15300, 15300, 15300],
    wall_now2 := 1700000000160000, transport := fun _ => true }

theorem meta_timestamps_from_epoch_witness :
    c7w.thr ≤ c7w.rms ∧ c7w.epoch_us0 < 2 ^ 32 * 1000000 ∧
    (∃ m rres rest, cycleEvents c7w = Ev.pub (Msg.meta m) rres :: rest ∧
      m.epoch_s = c7w.epoch_us0 / 1000000 ∧
      m.t0_us = c7w.epoch_us0 ∧
      m.iso = formatISO8601UTC_us c7w.epoch_us0 ∧
      m.iso = (formatISO8601UTC (c7w.epoch_us0 / 1000000)).dropRight 1 ++ "." ++
        padZeros 6 (c7w.epoch_us0 % 1000000) ++ "Z" ∧
      m.epoch_s = m.t0_us / 1000000 ∧
      ∀ w : ℕ, cycleEvents { c7w with wall_now2 := w } = cycleEvents c7w) :=
  ⟨by norm_num [c7w], by norm_num [c7w],
   meta_timestamps_from_epoch c7w (by norm_num [c7w]) (by norm_num [c7w])⟩

/-- The axis-x blob message exactly as built by the publish branch
(src line 1247): `type = "x"`, the session id, `idx = 0`, `parts = 1`,
payload key `"a"`, and the little-endian-packed samples. -/
def axisBlob (id_msg : String) (vs : List ℤ) : BlobMsg :=
  { type := "x", id := id_msg, idx := 0, parts := 1, key := "a",
    payload := packSamplesI16 vs }

/-- C8: for an axis blob whose payload packs `n` samples at 2 bytes each,
with the standard 28-character session id and `idx = 0`, `parts = 1`: the
1400-byte destination buffer accommodates the encoding exactly for
`n ≤ 671`, in which case the message is handed to the transport; from
`n = 672` on, the encoder reports an error and nothing is published —
the message is never truncated. -/
theorem blob_capacity_threshold (vs : List ℤ) (id_msg : String) (tok : Bool)
    (hid : id_msg.length = 28) :
    (vs.length ≤ 671 →
      publishBlobCbor (axisBlob id_msg vs) tok = PubOutcome.sent tok) ∧
    (672 ≤ vs.length →
      publishBlobCbor (axisBlob id_msg vs) tok = PubOutcome.encodeError) := by
  have hpay := packSamplesI16_length vs
  have hid2 : cborTextSize id_msg = 30 := by
    rw [cborTextSize, hid]
    decide
  have hsz : blobEncodedSize (axisBlob id_msg vs) =
      55 + (cborUintSize (2 * vs.length) + 2 * vs.length) := by
    show 1 + cborTextSize "type" + cborTextSize "x" + cborTextSize "id" + cborTextSize id_msg
      + cborTextSize "idx" + cborUintSize 0 + cborTextSize "parts" + cborUintSize 1
      + cborTextSize "a" + cborBytesSize (packSamplesI16 vs).length = _
    rw [hid2, hpay, cborBytesSize,
      show cborTextSize "type" = 5 from rfl, show cborTextSize "x" = 2 from rfl,
      show cborTextSize "id" = 3 from rfl, show cborTextSize "idx" = 4 from rfl,
      show cborUintSize 0 = 1 from rfl, show cborTextSize "parts" = 6 from rfl,
      show cborUintSize 1 = 1 from rfl, show cborTextSize "a" = 2 from rfl]
  simp only [publishBlobCbor, hsz]
  constructor
  · intro hlen
    have hc : cborUintSize (2 * vs.length) + 2 * vs.length ≤ 1345 := by
      simp only [cborUintSize]
      split_ifs <;> omega
    rw [if_pos (by omega)]
  · intro hlen
    have hc : 1345 < cborUintSize (2 * vs.length) + 2 * vs.length := by
      simp only [cborUintSize]
      split_ifs <;> omega
    rw [if_neg (by omega)]

def id28 : String := "esp32s3-lis331-01-1234567890"

theorem blob_capacity_threshold_witness :
    id28.length = 28 ∧
    672 ≤ (List.replicate 672 (0 : ℤ)).length ∧
    publishBlobCbor (axisBlob id28 (List.replicate 672 (0 : ℤ))) true =
      PubOutcome.encodeError :=
  ⟨by decide, by simp only [List.length_replicate]; exact le_rfl,
   (blob_capacity_threshold (List.replicate 672 (0 : ℤ)) id28 true (by decide)).2
     (by simp only [List.length_replicate]; exact le_rfl)⟩

end AccelMonitor
